import Mathlib

/-!
Shallow embedding of `channels_presence` (django-channels-presence): the
membership engine in `channels_presence/models.py` and the decorators in
`channels_presence/decorators.py`.

The durable store is modelled as an explicit state `DB` holding the `Room`
rows (keyed by their unique `channel_name`) and the `Presence` rows.  Group
transport calls (`group_add` / `group_discard`) and emitted Change Events
(`presence_changed` signal sends) are recorded, in order, in a log of
`Action`s returned next to the new state.  Django's `get_or_create` on
`Presence` selects on `(room, channel_name, user)` and, on a miss, inserts a
row; the `unique_together = [("room", "channel_name")]` constraint makes that
insert fail with an `IntegrityError` when a row for the same
`(room, channel_name)` but a different `user` already exists, which the model
renders as the `integrity_error` outcome carrying the (unchanged) state.
Timestamps (`now()`) are passed explicitly as a `Nat` parameter `t`.
-/

namespace ChannelsPresence

/-- A Django auth user as seen by `add_presence`: a primary key plus the
`is_authenticated` flag consulted at join time. -/
structure AuthUser where
  uid : Nat
  is_authenticated : Bool
deriving DecidableEq, Repr

/-- One `Presence` row (models.py:35-47): the owning room (by its unique
`channel_name`), the member's reply-channel name, the optional user id
(`null = anonymous`), and `last_seen`. -/
structure Presence where
  room : String
  channel_name : String
  user : Option Nat
  last_seen : Nat
deriving DecidableEq, Repr

/-- The store state: `Room` rows (their unique `channel_name`s) and
`Presence` rows. -/
structure DB where
  rooms : List String
  presences : List Presence
deriving DecidableEq, Repr

/-- The payload of one `presence_changed` signal send
(`Room.broadcast_changed`, models.py:174-181). -/
structure Event where
  room : String
  added : Option Presence
  removed : Option Presence
  bulk_change : Bool
deriving DecidableEq, Repr

/-- One observable side effect of an engine operation: a channel-layer group
call or a Change Event broadcast. -/
inductive Action where
  | group_add (group member : String)
  | group_discard (group member : String)
  | event (e : Event)
deriving DecidableEq, Repr

/-- `if user and user.is_authenticated: authed_user = user else: authed_user
= None` (models.py:99-102): the user id actually stored on the row. -/
def authed_user (user : Option AuthUser) : Option Nat :=
  match user with
  | some u => if u.is_authenticated then some u.uid else none
  | none => none

/-- Row predicate for the `unique_together` key `(room, channel_name)`. -/
def presenceKeyMatch (rn cn : String) (p : Presence) : Bool :=
  decide (p.room = rn ∧ p.channel_name = cn)

/-- Row predicate for the `get_or_create` lookup key
`(room, channel_name, user)` (models.py:103-105). -/
def presenceExactMatch (rn cn : String) (u : Option Nat) (p : Presence) : Bool :=
  decide (p.room = rn ∧ p.channel_name = cn ∧ p.user = u)

/-- `Presence.objects.get(room=self, channel_name=channel_name)`. -/
def find_presence (l : List Presence) (rn cn : String) : Option Presence :=
  l.find? (presenceKeyMatch rn cn)

/-- The select half of `Presence.objects.get_or_create(room=self,
channel_name=channel_name, user=authed_user)`. -/
def find_presence_exact (l : List Presence) (rn cn : String) (u : Option Nat) :
    Option Presence :=
  l.find? (presenceExactMatch rn cn u)

/-- Outcome of a join: either the operation returned normally, or the
`Presence` insert hit the `(room, channel_name)` uniqueness constraint and
raised `IntegrityError`.  Both carry the committed state and the side-effect
log at that point. -/
inductive JoinResult where
  | ok (db : DB) (log : List Action)
  | integrity_error (db : DB) (log : List Action)
deriving DecidableEq, Repr

/-- `Room.objects.get_or_create(channel_name=room_channel_name)`
(models.py:52): returns the state and the `created` flag. -/
def get_or_create_room (db : DB) (rn : String) : DB × Bool :=
  if rn ∈ db.rooms then (db, false)
  else ({ db with rooms := db.rooms ++ [rn] }, true)

/-- `Room.add_presence` (models.py:98-108): resolve the authenticated user,
get-or-create the `Presence` keyed on `(room, channel_name, user)`; when the
row is created, call `channel_layer.group_add` and then broadcast an `added`
event; when the select misses but a row for `(room, channel_name)` with a
different user exists, the insert raises `IntegrityError`. -/
def add_presence (db : DB) (rn cn : String) (user : Option AuthUser) (t : Nat) :
    JoinResult :=
  let au := authed_user user
  match find_presence_exact db.presences rn cn au with
  | some _ => .ok db []
  | none =>
    match find_presence db.presences rn cn with
    | some _ => .integrity_error db []
    | none =>
      let p : Presence := ⟨rn, cn, au, t⟩
      .ok { db with presences := db.presences ++ [p] }
        [.group_add rn cn, .event ⟨rn, some p, none, false⟩]

/-- `RoomManager.add` (models.py:51-54): get-or-create the room, then
`add_presence`. -/
def room_add (db : DB) (rn cn : String) (user : Option AuthUser) (t : Nat) :
    JoinResult :=
  let db1 := (get_or_create_room db rn).1
  add_presence db1 rn cn user t

/-- The state after `RoomManager.add`, whether or not the presence insert
raised (the raise leaves the committed state as-is). -/
def join_state (db : DB) (rn cn : String) (user : Option AuthUser) (t : Nat) : DB :=
  match room_add db rn cn user t with
  | .ok d _ => d
  | .integrity_error d _ => d

/-- `Room.remove_presence(channel_name=...)` (models.py:120-131): look up the
row; absent means return; present means `group_discard`, delete the row, and
broadcast a `removed` event. -/
def remove_presence (db : DB) (rn cn : String) : DB × List Action :=
  match find_presence db.presences rn cn with
  | none => (db, [])
  | some p =>
    ({ db with presences := db.presences.eraseP (fun q => decide (q = p)) },
     [.group_discard rn p.channel_name, .event ⟨rn, none, some p, false⟩])

/-- `Room.remove_presence(presence=...)` (models.py:120-131 with the row
passed in, as `leave_all` does): no lookup; discard, delete, broadcast. -/
def remove_presence_obj (db : DB) (p : Presence) : DB × List Action :=
  ({ db with presences := db.presences.eraseP (fun q => decide (q = p)) },
   [.group_discard p.room p.channel_name, .event ⟨p.room, none, some p, false⟩])

/-- `RoomManager.remove` (models.py:61-66): fetch the room by name; an absent
room is swallowed (`ObjectDoesNotExist` caught, return). -/
def room_remove (db : DB) (rn cn : String) : DB × List Action :=
  if rn ∈ db.rooms then remove_presence db rn cn else (db, [])

/-- `PresenceManager.touch` (models.py:18-19):
`filter(channel_name=...).update(last_seen=now())`. -/
def touch (db : DB) (cn : String) (t : Nat) : DB × List Action :=
  ({ db with presences := db.presences.map (fun p =>
      if p.channel_name = cn then { p with last_seen := t } else p) }, [])

/-- One iteration of the `leave_all` loop body (models.py:25-27). -/
def leave_all_step (acc : DB × List Action) (p : Presence) : DB × List Action :=
  let r := remove_presence_obj acc.1 p
  (r.1, acc.2 ++ r.2)

/-- `PresenceManager.leave_all` (models.py:24-27): iterate the rows matching
the member's channel name and remove each via its room. -/
def leave_all (db : DB) (cn : String) : DB × List Action :=
  (db.presences.filter (fun p => decide (p.channel_name = cn))).foldl
    leave_all_step (db, [])

/-- A row of `room` that `prune_presences` deletes: `last_seen < now() -
timedelta(seconds=a)`, written additively to avoid truncated subtraction. -/
def stale (rn : String) (a t : Nat) (p : Presence) : Bool :=
  decide (p.room = rn ∧ p.last_seen + a < t)

/-- `Room.prune_presences` (models.py:144-152): resolve the age (argument,
else the `CHANNELS_PRESENCE_MAX_AGE` setting `cfg`, else 60), bulk-delete the
stale rows of this room, and broadcast a single `bulk_change` event when the
deleted count is nonzero. -/
def prune_presences (db : DB) (rn : String) (age cfg : Option Nat) (t : Nat) :
    DB × List Action :=
  let a := age.getD (cfg.getD 60)
  let num_deleted := (db.presences.filter (stale rn a t)).length
  let db1 := { db with presences := db.presences.filter (fun p => ! stale rn a t p) }
  if num_deleted > 0 then (db1, [.event ⟨rn, none, none, true⟩]) else (db1, [])

/-- `RoomManager.prune_rooms` (models.py:83-84):
`Room.objects.filter(presence__isnull=True).delete()`. -/
def prune_rooms (db : DB) : DB × List Action :=
  ({ db with rooms := db.rooms.filter (fun r =>
      db.presences.any (fun p => decide (p.room = r))) }, [])

/-- `Room.get_users` (models.py:164-166): distinct users having a presence in
this room (rows with `user=None` cannot join to a user row). -/
def get_users (db : DB) (rn : String) : List Nat :=
  (db.presences.filterMap (fun p => if p.room = rn then p.user else none)).dedup

/-- `Room.get_anonymous_count` (models.py:168-169):
`self.presence_set.filter(user=None).count()`. -/
def get_anonymous_count (db : DB) (rn : String) : Nat :=
  (db.presences.filter (fun p => decide (p.room = rn ∧ p.user = none))).length

/-- The store-level invariant enforced by
`unique_together = [("room", "channel_name")]` (models.py:46-47). -/
def uniquePairs (db : DB) : Prop :=
  db.presences.Pairwise (fun p q => ¬ (p.room = q.room ∧ p.channel_name = q.channel_name))

instance uniquePairsDecidable (db : DB) : Decidable (uniquePairs db) := by
  unfold uniquePairs
  infer_instance

/-!
The non-blocking (async) call paths of `models.py`, embedded separately from
their own code lines.  Each `async` method performs the same store reads and
writes through the `a`-prefixed ORM calls (`aget_or_create`, `aupdate`,
`adelete`, `aget`), so its data semantics is a Lean function of the same
shape; `get_anonymous_count_async` (models.py:171-172) runs the synchronous
`.count()` queryset evaluation, so its value is that of the sync count.
-/

namespace Async

/-- `Room.add_presence_async` (models.py:110-118). -/
def add_presence_async (db : DB) (rn cn : String) (user : Option AuthUser) (t : Nat) :
    JoinResult :=
  let au := authed_user user
  match find_presence_exact db.presences rn cn au with
  | some _ => .ok db []
  | none =>
    match find_presence db.presences rn cn with
    | some _ => .integrity_error db []
    | none =>
      let p : Presence := ⟨rn, cn, au, t⟩
      .ok { db with presences := db.presences ++ [p] }
        [.group_add rn cn, .event ⟨rn, some p, none, false⟩]

/-- `RoomManager.add_async` (models.py:56-59). -/
def room_add_async (db : DB) (rn cn : String) (user : Option AuthUser) (t : Nat) :
    JoinResult :=
  let db1 := (get_or_create_room db rn).1
  add_presence_async db1 rn cn user t

/-- `Room.remove_presence_async(channel_name=...)` (models.py:133-142). -/
def remove_presence_async (db : DB) (rn cn : String) : DB × List Action :=
  match find_presence db.presences rn cn with
  | none => (db, [])
  | some p =>
    ({ db with presences := db.presences.eraseP (fun q => decide (q = p)) },
     [.group_discard rn p.channel_name, .event ⟨rn, none, some p, false⟩])

/-- `Room.remove_presence_async(presence=...)` (models.py:133-142). -/
def remove_presence_obj_async (db : DB) (p : Presence) : DB × List Action :=
  ({ db with presences := db.presences.eraseP (fun q => decide (q = p)) },
   [.group_discard p.room p.channel_name, .event ⟨p.room, none, some p, false⟩])

/-- `RoomManager.remove_async` (models.py:68-73). -/
def room_remove_async (db : DB) (rn cn : String) : DB × List Action :=
  if rn ∈ db.rooms then remove_presence_async db rn cn else (db, [])

/-- `PresenceManager.touch_async` (models.py:21-22). -/
def touch_async (db : DB) (cn : String) (t : Nat) : DB × List Action :=
  ({ db with presences := db.presences.map (fun p =>
      if p.channel_name = cn then { p with last_seen := t } else p) }, [])

/-- One iteration of the `leave_all_async` loop body (models.py:30-32). -/
def leave_all_step_async (acc : DB × List Action) (p : Presence) : DB × List Action :=
  let r := remove_presence_obj_async acc.1 p
  (r.1, acc.2 ++ r.2)

/-- `PresenceManager.leave_all_async` (models.py:29-32). -/
def leave_all_async (db : DB) (cn : String) : DB × List Action :=
  (db.presences.filter (fun p => decide (p.channel_name = cn))).foldl
    leave_all_step_async (db, [])

/-- `Room.prune_presences_async` (models.py:154-162). -/
def prune_presences_async (db : DB) (rn : String) (age cfg : Option Nat) (t : Nat) :
    DB × List Action :=
  let a := age.getD (cfg.getD 60)
  let num_deleted := (db.presences.filter (stale rn a t)).length
  let db1 := { db with presences := db.presences.filter (fun p => ! stale rn a t p) }
  if num_deleted > 0 then (db1, [.event ⟨rn, none, none, true⟩]) else (db1, [])

/-- `RoomManager.prune_rooms_async` (models.py:86-87). -/
def prune_rooms_async (db : DB) : DB × List Action :=
  ({ db with rooms := db.rooms.filter (fun r =>
      db.presences.any (fun p => decide (p.room = r))) }, [])

/-- `Room.get_anonymous_count_async` (models.py:171-172): the value computed
by the synchronous `.count()` it invokes. -/
def get_anonymous_count_async (db : DB) (rn : String) : Nat :=
  (db.presences.filter (fun p => decide (p.room = rn ∧ p.user = none))).length

end Async

/-- Modelled from the spec: `channels_presence/signals.py` (the
`presence_changed` dispatch behind `Room.broadcast_changed`) is not among the
source files.  Per §4.2, the Change Notifier delivers an emitted event to
every currently-registered listener; a listener that errors is reported to an
error channel and must not fail the triggering operation.  `notify_listeners`
delivers one event to all listeners and returns the reported errors. -/
def notify_listeners (listeners : List (Event → Except String Unit)) (e : Event) :
    List String :=
  listeners.filterMap (fun f =>
    match f e with
    | .ok _ => none
    | .error msg => some msg)

/-- The events among a side-effect log. -/
def events_of (log : List Action) : List Event :=
  log.filterMap (fun a =>
    match a with
    | .event e => some e
    | _ => none)

/-- Modelled from the spec (§4.2): run a mutating engine operation and then
deliver each emitted event to the registered listeners; listener errors are
collected next to the operation's committed result, never raised into it. -/
def run_notified (listeners : List (Event → Except String Unit))
    (op : DB → DB × List Action) (db : DB) : (DB × List Action) × List String :=
  let r := op db
  (r, (events_of r.2).flatMap (notify_listeners listeners))

/-! ## Helper lemmas -/

theorem get_or_create_room_presences (db : DB) (rn : String) :
    ((get_or_create_room db rn).1).presences = db.presences := by
  unfold get_or_create_room
  split <;> rfl

theorem get_or_create_room_of_mem (db : DB) (rn : String) (h : rn ∈ db.rooms) :
    (get_or_create_room db rn).1 = db := by
  unfold get_or_create_room
  simp [h]

@[simp]
theorem presenceKeyMatch_eq_true (rn cn : String) (p : Presence) :
    presenceKeyMatch rn cn p = true ↔ (p.room = rn ∧ p.channel_name = cn) := by
  simp [presenceKeyMatch]

@[simp]
theorem presenceExactMatch_eq_true (rn cn : String) (u : Option Nat) (p : Presence) :
    presenceExactMatch rn cn u p = true ↔
      (p.room = rn ∧ p.channel_name = cn ∧ p.user = u) := by
  simp [presenceExactMatch]

/-- After erasing the row that `find_presence` returned, no row for the same
`(room, channel_name)` remains, given the uniqueness invariant. -/
theorem find_presence_eraseP_self (l : List Presence) (rn cn : String)
    (hl : l.Pairwise (fun p q => ¬ (p.room = q.room ∧ p.channel_name = q.channel_name)))
    (p : Presence) (hp : find_presence l rn cn = some p) :
    find_presence (l.eraseP (fun q => decide (q = p))) rn cn = none := by
  induction l with
  | nil => simp [find_presence] at hp
  | cons a l ih =>
    rw [List.pairwise_cons] at hl
    obtain ⟨ha, hl'⟩ := hl
    by_cases hm : presenceKeyMatch rn cn a = true
    · have hpa : a = p := by
        unfold find_presence at hp
        rw [List.find?_cons_of_pos _ hm] at hp
        exact Option.some.inj hp
      have herase : (a :: l).eraseP (fun q => decide (q = p)) = l := by
        apply List.eraseP_cons_of_pos
        simp [hpa]
      rw [herase]
      unfold find_presence
      rw [List.find?_eq_none]
      intro x hx hmx
      rcases (presenceKeyMatch_eq_true rn cn x).mp hmx with ⟨hxr, hxc⟩
      rcases (presenceKeyMatch_eq_true rn cn a).mp hm with ⟨har, hac⟩
      exact ha x hx ⟨har.trans hxr.symm, hac.trans hxc.symm⟩
    · have hp' : find_presence l rn cn = some p := by
        unfold find_presence at hp ⊢
        rw [List.find?_cons_of_neg _ hm] at hp
        exact hp
      have hap : ¬ (a = p) := by
        intro hEq
        apply hm
        have := List.find?_some hp'
        rw [hEq]
        exact this
      have herase : (a :: l).eraseP (fun q => decide (q = p)) =
          a :: l.eraseP (fun q => decide (q = p)) := by
        apply List.eraseP_cons_of_neg
        simp [hap]
      rw [herase]
      unfold find_presence
      rw [List.find?_cons_of_neg _ hm]
      exact ih hl' hp'

/-! ## C1 -/

/-- C1: for every Join(roomName, member, identity) call: if a Membership row
for `(room, member, identity-or-null-if-unauthenticated)` already existed,
the call is a no-op on the membership rows with no group-transport call and
no Change Event; if the row was newly created, the call makes exactly one
`group_add(room.name, member)` transport call and emits exactly one Change
Event whose `added` is the new membership, in that order. -/
theorem C1_join_dedup_and_effects (db : DB) (rn cn : String) (u : Option AuthUser)
    (t : Nat) :
    ((find_presence_exact db.presences rn cn (authed_user u)).isSome = true →
      ∃ db', room_add db rn cn u t = .ok db' [] ∧ db'.presences = db.presences)
    ∧ (find_presence_exact db.presences rn cn (authed_user u) = none →
       find_presence db.presences rn cn = none →
       room_add db rn cn u t =
         .ok ⟨((get_or_create_room db rn).1).rooms,
              db.presences ++ [⟨rn, cn, authed_user u, t⟩]⟩
           [.group_add rn cn,
            .event ⟨rn, some ⟨rn, cn, authed_user u, t⟩, none, false⟩]) := by
  have hpres : ((get_or_create_room db rn).1).presences = db.presences :=
    get_or_create_room_presences db rn
  constructor
  · intro h
    rw [Option.isSome_iff_exists] at h
    obtain ⟨p, hp⟩ := h
    refine ⟨(get_or_create_room db rn).1, ?_, hpres⟩
    simp only [room_add, add_presence, hpres, hp]
  · intro h1 h2
    simp only [room_add, add_presence, hpres, h1, h2]

theorem C1_witness :
    find_presence_exact ([] : List Presence) "r" "c" (authed_user none) = none ∧
    room_add ⟨[], []⟩ "r" "c" none 0 =
      .ok ⟨((get_or_create_room ⟨[], []⟩ "r").1).rooms,
           [] ++ [⟨"r", "c", authed_user none, 0⟩]⟩
        [.group_add "r" "c",
         .event ⟨"r", some ⟨"r", "c", authed_user none, 0⟩, none, false⟩] :=
  ⟨rfl, (C1_join_dedup_and_effects ⟨[], []⟩ "r" "c" none 0).2 rfl rfl⟩

/-! ## C2 -/

/-- C2: Leave is idempotent on every store state satisfying the
`(room, member)` uniqueness constraint: a second Leave after a Leave deletes
nothing, makes no `group_discard` call and emits no event; and a Leave for an
absent membership or an absent room is a tolerated no-op, never an error. -/
theorem C2_leave_idempotent (db : DB) (rn cn : String) (h : uniquePairs db) :
    room_remove (room_remove db rn cn).1 rn cn = ((room_remove db rn cn).1, [])
    ∧ (find_presence db.presences rn cn = none → room_remove db rn cn = (db, []))
    ∧ (rn ∉ db.rooms → room_remove db rn cn = (db, [])) := by
  have hP : db.presences.Pairwise
      (fun p q => ¬ (p.room = q.room ∧ p.channel_name = q.channel_name)) := h
  refine ⟨?_, ?_, ?_⟩
  · by_cases hr : rn ∈ db.rooms
    · cases hf : find_presence db.presences rn cn with
      | none =>
        have h1 : room_remove db rn cn = (db, []) := by
          simp [room_remove, hr, remove_presence, hf]
        rw [h1]
        exact h1
      | some p =>
        have h1 : room_remove db rn cn =
            ({ db with presences := db.presences.eraseP (fun q => decide (q = p)) },
             [.group_discard rn p.channel_name, .event ⟨rn, none, some p, false⟩]) := by
          simp [room_remove, hr, remove_presence, hf]
        rw [h1]
        have hf' : find_presence (db.presences.eraseP (fun q => decide (q = p))) rn cn
            = none := find_presence_eraseP_self db.presences rn cn hP p hf
        simp [room_remove, hr, remove_presence, hf']
    · have h1 : room_remove db rn cn = (db, []) := by
        simp [room_remove, hr]
      rw [h1]
      exact h1
  · intro hf
    by_cases hr : rn ∈ db.rooms
    · simp [room_remove, hr, remove_presence, hf]
    · simp [room_remove, hr]
  · intro hr
    simp [room_remove, hr]

theorem C2_witness :
    room_remove (room_remove ⟨["r"], [⟨"r", "c", none, 0⟩]⟩ "r" "c").1 "r" "c" =
      ((room_remove ⟨["r"], [⟨"r", "c", none, 0⟩]⟩ "r" "c").1, []) :=
  (C2_leave_idempotent ⟨["r"], [⟨"r", "c", none, 0⟩]⟩ "r" "c" (by decide)).1

/-! ## C3 -/

theorem touch_map_id (cn : String) (t : Nat) (l : List Presence)
    (hall : ∀ p ∈ l, p.channel_name ≠ cn) :
    l.map (fun p => if p.channel_name = cn then { p with last_seen := t } else p) = l := by
  induction l with
  | nil => rfl
  | cons a l ih =>
    rw [List.forall_mem_cons] at hall
    simp only [List.map_cons]
    rw [if_neg hall.1, ih hall.2]

/-- C3: Touch(member) sets `last_seen = now` on every Membership row whose
member matches, across all rooms, and changes nothing else: it emits no
Change Event, keeps the rooms and the number of rows, preserves every row's
room, member and user, and for an unknown member it is the identity on the
state (zero rows affected, no error). -/
theorem C3_touch_frame (db : DB) (cn : String) (t : Nat) :
    (touch db cn t).2 = []
    ∧ (touch db cn t).1.rooms = db.rooms
    ∧ (touch db cn t).1.presences.length = db.presences.length
    ∧ (∀ (i : Nat) (hi : i < db.presences.length)
        (hj : i < (touch db cn t).1.presences.length),
        ((touch db cn t).1.presences.get ⟨i, hj⟩).room = (db.presences.get ⟨i, hi⟩).room
        ∧ ((touch db cn t).1.presences.get ⟨i, hj⟩).channel_name
            = (db.presences.get ⟨i, hi⟩).channel_name
        ∧ ((touch db cn t).1.presences.get ⟨i, hj⟩).user
            = (db.presences.get ⟨i, hi⟩).user
        ∧ ((touch db cn t).1.presences.get ⟨i, hj⟩).last_seen
            = (if (db.presences.get ⟨i, hi⟩).channel_name = cn then t
               else (db.presences.get ⟨i, hi⟩).last_seen))
    ∧ ((∀ p ∈ db.presences, p.channel_name ≠ cn) → touch db cn t = (db, [])) := by
  refine ⟨rfl, rfl, by simp [touch], ?_, ?_⟩
  · intro i hi hj
    simp only [touch, List.get_eq_getElem, List.getElem_map]
    by_cases hc : db.presences[i].channel_name = cn
    · simp [hc]
    · simp [hc]
  · intro hall
    simp only [touch, touch_map_id cn t db.presences hall]

theorem C3_witness :
    touch ⟨["r"], [⟨"r", "c", none, 0⟩]⟩ "x" 5 = (⟨["r"], [⟨"r", "c", none, 0⟩]⟩, []) :=
  (C3_touch_frame ⟨["r"], [⟨"r", "c", none, 0⟩]⟩ "x" 5).2.2.2.2 (by decide)

/-! ## C4 -/

theorem prune_presences_fst (db : DB) (rn : String) (age cfg : Option Nat) (t : Nat) :
    (prune_presences db rn age cfg t).1 =
      { db with presences := db.presences.filter (fun p => ! stale rn (age.getD (cfg.getD 60)) t p) } := by
  simp only [prune_presences]
  split <;> rfl

theorem prune_presences_snd (db : DB) (rn : String) (age cfg : Option Nat) (t : Nat) :
    (prune_presences db rn age cfg t).2 =
      (if (db.presences.filter (stale rn (age.getD (cfg.getD 60)) t)).length > 0
       then [.event ⟨rn, none, none, true⟩] else []) := by
  simp only [prune_presences]
  split <;> rfl

theorem stale_length_pos_iff (db : DB) (rn : String) (a t : Nat) :
    (db.presences.filter (stale rn a t)).length > 0 ↔
      ∃ p ∈ db.presences, p.room = rn ∧ p.last_seen + a < t := by
  constructor
  · intro h
    cases hfl : db.presences.filter (stale rn a t) with
    | nil => rw [hfl] at h; simp at h
    | cons q l =>
      have hq : q ∈ db.presences.filter (stale rn a t) := by
        rw [hfl]
        exact List.mem_cons_self q l
      rw [List.mem_filter] at hq
      exact ⟨q, hq.1, by simpa [stale] using hq.2⟩
  · rintro ⟨p, hp, hs⟩
    exact List.length_pos_of_mem (List.mem_filter.mpr ⟨hp, by simpa [stale] using hs⟩)

/-- C4: PruneStale(room, maxAge) deletes exactly the Memberships of that room
with `lastSeen < now - maxAge`, leaves the rooms unchanged, and emits exactly
one Change Event with `bulk_change = true` iff the deleted count is nonzero;
an unspecified maxAge defaults to the configured value (default 60 seconds);
with maxAge 60 a Membership 61 seconds old is removed with the event and a
Membership 59 seconds old is retained with no event. -/
theorem C4_prune_stale (db : DB) (rn : String) (a t : Nat) (cfg : Option Nat) :
    (∀ p, p ∈ (prune_presences db rn (some a) cfg t).1.presences ↔
        (p ∈ db.presences ∧ ¬ (p.room = rn ∧ p.last_seen + a < t)))
    ∧ (prune_presences db rn (some a) cfg t).1.rooms = db.rooms
    ∧ ((prune_presences db rn (some a) cfg t).2 = [.event ⟨rn, none, none, true⟩] ↔
        ∃ p ∈ db.presences, p.room = rn ∧ p.last_seen + a < t)
    ∧ ((prune_presences db rn (some a) cfg t).2 = [] ↔
        ¬ ∃ p ∈ db.presences, p.room = rn ∧ p.last_seen + a < t)
    ∧ prune_presences db rn none cfg t = prune_presences db rn (some (cfg.getD 60)) cfg t
    ∧ (prune_presences ⟨["r"], [⟨"r", "m", none, 39⟩]⟩ "r" (some 60) none 100).1.presences
        = []
    ∧ (prune_presences ⟨["r"], [⟨"r", "m", none, 39⟩]⟩ "r" (some 60) none 100).2
        = [.event ⟨"r", none, none, true⟩]
    ∧ prune_presences ⟨["r"], [⟨"r", "m", none, 41⟩]⟩ "r" (some 60) none 100
        = (⟨["r"], [⟨"r", "m", none, 41⟩]⟩, []) := by
  refine ⟨?_, ?_, ?_, ?_, rfl, by decide, by decide, by decide⟩
  · intro p
    rw [prune_presences_fst]
    simp [List.mem_filter, stale]
    tauto
  · rw [prune_presences_fst]
  · rw [prune_presences_snd]
    by_cases hc : (db.presences.filter (stale rn ((some a).getD (cfg.getD 60)) t)).length > 0
    · rw [if_pos hc]
      exact iff_of_true rfl ((stale_length_pos_iff db rn a t).mp hc)
    · rw [if_neg hc]
      exact iff_of_false (by simp) (fun hex => hc ((stale_length_pos_iff db rn a t).mpr hex))
  · rw [prune_presences_snd]
    by_cases hc : (db.presences.filter (stale rn ((some a).getD (cfg.getD 60)) t)).length > 0
    · rw [if_pos hc]
      exact iff_of_false (by simp)
        (fun hne => hne ((stale_length_pos_iff db rn a t).mp hc))
    · rw [if_neg hc]
      exact iff_of_true rfl (fun hex => hc ((stale_length_pos_iff db rn a t).mpr hex))

theorem C4_witness :
    prune_presences ⟨["r"], [⟨"r", "m", none, 39⟩]⟩ "r" none none 100 =
      prune_presences ⟨["r"], [⟨"r", "m", none, 39⟩]⟩ "r"
        (some ((none : Option Nat).getD 60)) none 100 :=
  (C4_prune_stale ⟨["r"], [⟨"r", "m", none, 39⟩]⟩ "r" 60 100 none).2.2.2.2.1

/-! ## C5 -/

/-- C5: PruneEmptyRooms() deletes exactly the Rooms whose Membership count is
zero: a room survives iff it has at least one Membership; the Membership rows
themselves are untouched and no event is emitted. -/
theorem C5_prune_empty_rooms (db : DB) (r : String) :
    (r ∈ (prune_rooms db).1.rooms ↔ (r ∈ db.rooms ∧ ∃ p ∈ db.presences, p.room = r))
    ∧ (prune_rooms db).1.presences = db.presences
    ∧ (prune_rooms db).2 = [] := by
  refine ⟨?_, rfl, rfl⟩
  simp [prune_rooms, List.mem_filter, List.any_eq_true]

theorem C5_witness :
    (prune_rooms ⟨["r", "s"], [⟨"r", "c", none, 0⟩]⟩).1.presences = [⟨"r", "c", none, 0⟩] :=
  (C5_prune_empty_rooms ⟨["r", "s"], [⟨"r", "c", none, 0⟩]⟩ "r").2.1

/-! ## C6 -/

theorem uniquePairs_join_state (db : DB) (rn cn : String) (u : Option AuthUser) (t : Nat)
    (h : uniquePairs db) : uniquePairs (join_state db rn cn u t) := by
  have hpres := get_or_create_room_presences db rn
  cases hfe : find_presence_exact db.presences rn cn (authed_user u) with
  | some p =>
    have hra : room_add db rn cn u t = .ok (get_or_create_room db rn).1 [] := by
      simp only [room_add, add_presence, hpres, hfe]
    unfold join_state
    rw [hra]
    show ((get_or_create_room db rn).1).presences.Pairwise _
    rw [hpres]
    exact h
  | none =>
    cases hf : find_presence db.presences rn cn with
    | some p =>
      have hra : room_add db rn cn u t = .integrity_error (get_or_create_room db rn).1 [] := by
        simp only [room_add, add_presence, hpres, hfe, hf]
      unfold join_state
      rw [hra]
      show ((get_or_create_room db rn).1).presences.Pairwise _
      rw [hpres]
      exact h
    | none =>
      have hra : room_add db rn cn u t =
          .ok ⟨((get_or_create_room db rn).1).rooms,
               db.presences ++ [⟨rn, cn, authed_user u, t⟩]⟩
            [.group_add rn cn,
             .event ⟨rn, some ⟨rn, cn, authed_user u, t⟩, none, false⟩] := by
        simp only [room_add, add_presence, hpres, hfe, hf]
      unfold join_state
      rw [hra]
      show (db.presences ++ [(⟨rn, cn, authed_user u, t⟩ : Presence)]).Pairwise _
      rw [List.pairwise_append]
      refine ⟨h, List.pairwise_singleton _ _, ?_⟩
      intro x hx y hy
      rw [List.mem_singleton] at hy
      subst hy
      intro hcontr
      have hmx : presenceKeyMatch rn cn x = true := by
        simp [presenceKeyMatch, hcontr.1, hcontr.2]
      have hnone : ∀ z ∈ db.presences, ¬ presenceKeyMatch rn cn z = true :=
        List.find?_eq_none.mp hf
      exact hnone x hx hmx

theorem touch_one_room (cn : String) (t : Nat) (p : Presence) :
    (if p.channel_name = cn then { p with last_seen := t } else p).room = p.room := by
  by_cases hc : p.channel_name = cn <;> simp [hc]

theorem touch_one_channel (cn : String) (t : Nat) (p : Presence) :
    (if p.channel_name = cn then { p with last_seen := t } else p).channel_name
      = p.channel_name := by
  by_cases hc : p.channel_name = cn <;> simp [hc]

theorem uniquePairs_touch (db : DB) (cn : String) (t : Nat) (h : uniquePairs db) :
    uniquePairs (touch db cn t).1 := by
  show (db.presences.map _).Pairwise _
  refine List.Pairwise.map _ (fun a b hab => ?_) h
  intro hcontr
  apply hab
  rw [touch_one_room, touch_one_room, touch_one_channel, touch_one_channel] at hcontr
  exact hcontr

theorem uniquePairs_room_remove (db : DB) (rn cn : String) (h : uniquePairs db) :
    uniquePairs (room_remove db rn cn).1 := by
  unfold room_remove
  by_cases hr : rn ∈ db.rooms
  · rw [if_pos hr]
    unfold remove_presence
    cases hf : find_presence db.presences rn cn with
    | none => exact h
    | some p => exact List.Pairwise.sublist (List.eraseP_sublist _) h
  · rw [if_neg hr]
    exact h

theorem uniquePairs_foldl_remove (ps : List Presence) (db : DB) (l : List Action)
    (h : uniquePairs db) :
    uniquePairs ((ps.foldl leave_all_step (db, l)).1) := by
  induction ps generalizing db l with
  | nil => exact h
  | cons p ps ih =>
    rw [List.foldl_cons]
    have hstep : uniquePairs ((leave_all_step (db, l) p).1) := by
      unfold leave_all_step remove_presence_obj
      exact List.Pairwise.sublist (List.eraseP_sublist _) h
    exact ih (leave_all_step (db, l) p).1 (leave_all_step (db, l) p).2 hstep

theorem uniquePairs_leave_all (db : DB) (cn : String) (h : uniquePairs db) :
    uniquePairs (leave_all db cn).1 :=
  uniquePairs_foldl_remove _ db [] h

theorem uniquePairs_prune (db : DB) (rn : String) (age cfg : Option Nat) (t : Nat)
    (h : uniquePairs db) : uniquePairs (prune_presences db rn age cfg t).1 := by
  rw [prune_presences_fst]
  exact List.Pairwise.sublist (List.filter_sublist _) h

/-- C6: the `(room, member)` pair is unique: the empty initial state
satisfies the invariant, and every public operation — Join (whether it
returns or raises), Touch, Leave, LeaveAll, PruneStale, PruneEmptyRooms —
maps a state satisfying it to a state satisfying it, so it holds in every
reachable state. -/
theorem C6_unique_pair_invariant (db : DB) (rn cn : String) (u : Option AuthUser)
    (t : Nat) (age cfg : Option Nat) (h : uniquePairs db) :
    uniquePairs (⟨[], []⟩ : DB)
    ∧ uniquePairs (join_state db rn cn u t)
    ∧ uniquePairs (touch db cn t).1
    ∧ uniquePairs (room_remove db rn cn).1
    ∧ uniquePairs (leave_all db cn).1
    ∧ uniquePairs (prune_presences db rn age cfg t).1
    ∧ uniquePairs (prune_rooms db).1 :=
  ⟨List.Pairwise.nil, uniquePairs_join_state db rn cn u t h, uniquePairs_touch db cn t h,
   uniquePairs_room_remove db rn cn h, uniquePairs_leave_all db cn h,
   uniquePairs_prune db rn age cfg t h, h⟩

theorem C6_witness :
    uniquePairs (⟨[], []⟩ : DB)
    ∧ uniquePairs (join_state ⟨["r"], [⟨"r", "c", some 1, 0⟩]⟩ "r" "d" none 5)
    ∧ uniquePairs (touch ⟨["r"], [⟨"r", "c", some 1, 0⟩]⟩ "d" 5).1
    ∧ uniquePairs (room_remove ⟨["r"], [⟨"r", "c", some 1, 0⟩]⟩ "r" "d").1
    ∧ uniquePairs (leave_all ⟨["r"], [⟨"r", "c", some 1, 0⟩]⟩ "d").1
    ∧ uniquePairs (prune_presences ⟨["r"], [⟨"r", "c", some 1, 0⟩]⟩ "r" none none 5).1
    ∧ uniquePairs (prune_rooms ⟨["r"], [⟨"r", "c", some 1, 0⟩]⟩).1 :=
  C6_unique_pair_invariant ⟨["r"], [⟨"r", "c", some 1, 0⟩]⟩ "r" "d" none 5 none none
    (by decide)

/-! ## C7 -/

/-- C7: operation by operation, the non-blocking (async) call path performs
the same store mutations, transport calls and event emissions, and computes
the same values, as the blocking (sync) call path.  (For GetAnonymousCount
this is the value of the queryset count the async method evaluates; the
async method runs it as a synchronous call, which is the code slip recorded
for this claim.) -/
theorem C7_sync_async_agree :
    (∀ db rn cn u t, Async.room_add_async db rn cn u t = room_add db rn cn u t)
    ∧ (∀ db rn cn u t, Async.add_presence_async db rn cn u t = add_presence db rn cn u t)
    ∧ (∀ db cn t, Async.touch_async db cn t = touch db cn t)
    ∧ (∀ db rn cn, Async.remove_presence_async db rn cn = remove_presence db rn cn)
    ∧ (∀ db p, Async.remove_presence_obj_async db p = remove_presence_obj db p)
    ∧ (∀ db rn cn, Async.room_remove_async db rn cn = room_remove db rn cn)
    ∧ (∀ db cn, Async.leave_all_async db cn = leave_all db cn)
    ∧ (∀ db rn age cfg t, Async.prune_presences_async db rn age cfg t
        = prune_presences db rn age cfg t)
    ∧ (∀ db, Async.prune_rooms_async db = prune_rooms db)
    ∧ (∀ db rn, Async.get_anonymous_count_async db rn = get_anonymous_count db rn) :=
  ⟨fun _ _ _ _ _ => rfl, fun _ _ _ _ _ => rfl, fun _ _ _ => rfl, fun _ _ _ => rfl,
   fun _ _ => rfl, fun _ _ _ => rfl, fun _ _ => rfl, fun _ _ _ _ _ => rfl,
   fun _ => rfl, fun _ _ => rfl⟩

/-! ## C8 -/

/-- C8: a registered listener that errors does not make the mutating
operation fail: the operation's committed state and side-effect log are
exactly those of the operation run without any listener, and the listener's
error is merely reported among the collected listener failures. -/
theorem C8_listener_errors_harmless (listeners : List (Event → Except String Unit))
    (op : DB → DB × List Action) (db : DB)
    (f : Event → Except String Unit) (e : Event) (msg : String)
    (hf : f ∈ listeners) (he : f e = .error msg) :
    (run_notified listeners op db).1 = op db
    ∧ msg ∈ notify_listeners listeners e := by
  refine ⟨rfl, ?_⟩
  unfold notify_listeners
  rw [List.mem_filterMap]
  exact ⟨f, hf, by rw [he]⟩

theorem C8_witness :
    (run_notified [fun _ => Except.error "boom"] (fun d => touch d "c" 0) ⟨[], []⟩).1
        = touch ⟨[], []⟩ "c" 0
    ∧ "boom" ∈ notify_listeners [fun _ => Except.error "boom"]
        ⟨"r", none, none, true⟩ :=
  C8_listener_errors_harmless [fun _ => Except.error "boom"] (fun d => touch d "c" 0)
    ⟨[], []⟩ (fun _ => Except.error "boom") ⟨"r", none, none, true⟩ "boom"
    (List.mem_singleton_self _) rfl

/-! ## C9 -/

/-- C9: GetMembers(room) is the set of distinct identities having at least
one Membership in the room (anonymous rows excluded, no duplicates);
GetAnonymousCount(room) counts the null-identity rows of the room — after an
anonymous join and an authenticated join on a different member the count is
1; and a Join whose supplied identity is not authenticated stores the row as
anonymous (null identity). -/
theorem C9_members_and_anonymous (db : DB) (rn cn : String) (w : AuthUser) (t : Nat) :
    (∀ x, x ∈ get_users db rn ↔ ∃ p ∈ db.presences, p.room = rn ∧ p.user = some x)
    ∧ (get_users db rn).Nodup
    ∧ (w.is_authenticated = false →
        find_presence db.presences rn cn = none →
        ∃ db' l, room_add db rn cn (some w) t = .ok db' l ∧
          db'.presences = db.presences ++ [⟨rn, cn, none, t⟩])
    ∧ get_anonymous_count
        (join_state (join_state ⟨[], []⟩ "lobby" "c1" none 0) "lobby" "c2"
          (some ⟨7, true⟩) 0) "lobby" = 1 := by
  refine ⟨?_, List.nodup_dedup _, ?_, by decide⟩
  · intro x
    unfold get_users
    rw [List.mem_dedup, List.mem_filterMap]
    constructor
    · rintro ⟨p, hp, hfp⟩
      by_cases hroom : p.room = rn
      · rw [if_pos hroom] at hfp
        exact ⟨p, hp, hroom, hfp⟩
      · rw [if_neg hroom] at hfp
        cases hfp
    · rintro ⟨p, hp, hroom, hu⟩
      refine ⟨p, hp, ?_⟩
      rw [if_pos hroom]
      exact hu
  · intro hw hf
    have hau : authed_user (some w) = none := by simp [authed_user, hw]
    have hfe : find_presence_exact db.presences rn cn none = none := by
      unfold find_presence_exact
      rw [List.find?_eq_none]
      intro x hx hmx
      rcases (presenceExactMatch_eq_true rn cn none x).mp hmx with ⟨h1, h2, _⟩
      have hkm : presenceKeyMatch rn cn x = true := by
        simp [presenceKeyMatch, h1, h2]
      have hnone : ∀ z ∈ db.presences, ¬ presenceKeyMatch rn cn z = true :=
        List.find?_eq_none.mp hf
      exact hnone x hx hkm
    refine ⟨⟨((get_or_create_room db rn).1).rooms, db.presences ++ [⟨rn, cn, none, t⟩]⟩,
      [.group_add rn cn, .event ⟨rn, some ⟨rn, cn, none, t⟩, none, false⟩], ?_, rfl⟩
    simp only [room_add, add_presence, get_or_create_room_presences, hau, hfe, hf]

theorem C9_witness :
    ∃ db' l, room_add ⟨[], []⟩ "r" "c" (some ⟨3, false⟩) 0 = .ok db' l ∧
      db'.presences = [] ++ [⟨"r", "c", none, 0⟩] :=
  (C9_members_and_anonymous ⟨[], []⟩ "r" "c" ⟨3, false⟩ 0).2.2.1 rfl rfl

/-! ## C10 -/

theorem unique_pair_eq (l : List Presence)
    (hl : l.Pairwise (fun p q => ¬ (p.room = q.room ∧ p.channel_name = q.channel_name)))
    (p q : Presence) (hp : p ∈ l) (hq : q ∈ l)
    (hr : p.room = q.room) (hc : p.channel_name = q.channel_name) : p = q := by
  induction l with
  | nil => cases hp
  | cons a l ih =>
    rw [List.pairwise_cons] at hl
    rcases List.mem_cons.mp hp with hpa | hpl
    · rcases List.mem_cons.mp hq with hqa | hql
      · rw [hpa, hqa]
      · subst hpa
        exact absurd ⟨hr, hc⟩ (hl.1 q hql)
    · rcases List.mem_cons.mp hq with hqa | hql
      · subst hqa
        exact absurd ⟨hr.symm, hc.symm⟩ (hl.1 p hpl)
      · exact ih hl.2 hpl hql

/-- C10: when a Membership for `(room, member)` exists with one stored
identity and Join is called with an identity resolving to a different stored
identity, the get-or-create keyed on `(room, member, identity)` misses its
select, attempts the insert, and fails on the `(room, channel_name)`
uniqueness constraint: the caller gets an `IntegrityError` while the
existing row, the transport state and the event stream are left unchanged. -/
theorem C10_conflicting_identity_error (db : DB) (rn cn : String) (u : Option AuthUser)
    (t : Nat) (p : Presence) (h : uniquePairs db)
    (hp : find_presence db.presences rn cn = some p)
    (hne : authed_user u ≠ p.user) (hroom : rn ∈ db.rooms) :
    room_add db rn cn u t = .integrity_error db [] := by
  have hp' : List.find? (presenceKeyMatch rn cn) db.presences = some p := hp
  have hfe : find_presence_exact db.presences rn cn (authed_user u) = none := by
    unfold find_presence_exact
    rw [List.find?_eq_none]
    intro x hx hmx
    rcases (presenceExactMatch_eq_true rn cn (authed_user u) x).mp hmx with ⟨h1, h2, h3⟩
    have hpmem : p ∈ db.presences := List.mem_of_find?_eq_some hp'
    rcases (presenceKeyMatch_eq_true rn cn p).mp (List.find?_some hp') with ⟨hpr, hpc⟩
    have hxp : x = p :=
      unique_pair_eq db.presences h x p hx hpmem (h1.trans hpr.symm) (h2.trans hpc.symm)
    apply hne
    rw [← h3, hxp]
  have hdb1 : (get_or_create_room db rn).1 = db := get_or_create_room_of_mem db rn hroom
  simp only [room_add, add_presence, hdb1, hfe, hp]

theorem C10_witness :
    room_add ⟨["r"], [⟨"r", "c", some 1, 0⟩]⟩ "r" "c" (some ⟨2, true⟩) 5 =
      .integrity_error ⟨["r"], [⟨"r", "c", some 1, 0⟩]⟩ [] :=
  C10_conflicting_identity_error ⟨["r"], [⟨"r", "c", some 1, 0⟩]⟩ "r" "c" (some ⟨2, true⟩)
    5 ⟨"r", "c", some 1, 0⟩ (by decide) rfl (by decide) (by decide)

end ChannelsPresence
